import Mathlib

set_option maxRecDepth 8000

/-!
Verification of the itinerary text parsing and request validation logic of the
process-tiktok serverless function (generateItinerary and the serve handler).
Strings are modelled as lists of Unicode code points; the JavaScript regex
operations used by the code are embedded as executable scans over those lists.
-/

namespace ClipToTrip

/-- Character class of the JavaScript regex escape for whitespace (the ECMA-262
WhiteSpace and LineTerminator code points), used by the trim operation and by
the whitespace parts of the two regexes of generateItinerary. -/
def isJsSpace (c : Char) : Bool :=
  c.toNat = 32 || c.toNat = 9 || c.toNat = 10 || c.toNat = 13 || c.toNat = 11 ||
  c.toNat = 12 || c.toNat = 0xA0 || c.toNat = 0x1680 ||
  (0x2000 ≤ c.toNat && c.toNat ≤ 0x200A) || c.toNat = 0x2028 || c.toNat = 0x2029 ||
  c.toNat = 0x202F || c.toNat = 0x205F || c.toNat = 0x3000 || c.toNat = 0xFEFF

/-- Character class of the JavaScript regex escape for digits: exactly the
ASCII digits 0 through 9. -/
def isDigitC (c : Char) : Bool := 48 ≤ c.toNat && c.toNat ≤ 57

/-- Case-insensitive test for the literal word day, as matched by the
case-insensitive regexes of generateItinerary. -/
def dayWord (d a y : Char) : Bool :=
  (d == 'd' || d == 'D') && (a == 'a' || a == 'A') && (y == 'y' || y == 'Y')

/-- JavaScript String.prototype.trim: strip whitespace from both ends. -/
def jsTrim (l : List Char) : List Char :=
  ((l.dropWhile isJsSpace).reverse.dropWhile isJsSpace).reverse

/-- Match the day-marker regex (day, optional whitespace, one or more digits,
case-insensitive, greedy) at the head of the input. On success, return the
remainder of the input after the match. -/
def dayMarkerAt : List Char → Option (List Char)
  | d :: a :: y :: r =>
    if dayWord d a y then
      match r.dropWhile isJsSpace with
      | c :: t => if isDigitC c then some (t.dropWhile isDigitC) else none
      | [] => none
    else none
  | _ => none

/-- JavaScript String.prototype.split on the day-marker regex: scan left to
right, cutting the string at every leftmost non-overlapping match. The fuel
argument bounds the recursion; fuel equal to the length of the input always
suffices because every step consumes at least one character. -/
def splitAuxF : Nat → List Char → List Char → List (List Char)
  | _, [], acc => [acc.reverse]
  | 0, l, acc => [acc.reverse ++ l]
  | Nat.succ n, c :: cs, acc =>
    match dayMarkerAt (c :: cs) with
    | some rest => acc.reverse :: splitAuxF n rest []
    | none => splitAuxF n cs (c :: acc)

/-- The day segmentation of generateItinerary: split the itinerary text on the
day-marker regex. -/
def splitDayMarkers (cs : List Char) : List (List Char) :=
  splitAuxF cs.length cs []

/-- Match the duration regex (one or more digits, optional whitespace, the word
day, an optional s, case-insensitive) at the head of the input; on success,
return the capture group, which is the maximal digit run. -/
def durCapAt : List Char → Option (List Char)
  | c :: t =>
    if isDigitC c then
      match (t.dropWhile isDigitC).dropWhile isJsSpace with
      | d :: a :: y :: _ => if dayWord d a y then some (c :: t.takeWhile isDigitC) else none
      | _ => none
    else none
  | [] => none

/-- JavaScript String.prototype.match on the duration regex: the capture group
of the first match, scanning start positions left to right. -/
def firstDurCap : List Char → Option (List Char)
  | [] => none
  | c :: t =>
    match durCapAt (c :: t) with
    | some ds => some ds
    | none => firstDurCap t

/-- Duration extraction of generateItinerary: the first captured day count
formatted with a Days suffix, defaulting to 5 Days when there is no match. -/
def parsedDuration (text : String) : String :=
  match firstDurCap text.toList with
  | some ds => String.mk ds ++ " Days"
  | none => "5 Days"

/-- JavaScript String.prototype.split on a literal newline: keeps empty
pieces, and yields one empty piece on empty input. -/
def splitNl : List Char → List (List Char)
  | [] => [[]]
  | c :: t =>
    if c == '\n' then [] :: splitNl t
    else
      match splitNl t with
      | [] => [[c]]
      | h :: r => (c :: h) :: r

/-- The structured day record pushed onto the days array by generateItinerary. -/
structure DayPlan where
  day : Nat
  title : String
  activities : List String
deriving DecidableEq, Repr

/-- The fixed activities pushed when a day yields zero extracted activity
lines. -/
def fallbackActivities (loc : String) : List String :=
  ["Explore " ++ loc ++ " highlights",
   "Experience local culture and cuisine",
   "Visit attractions mentioned in the video"]

/-- The fixed activities of the synthetic days appended by the final padding
loop of generateItinerary. -/
def padActivities (loc : String) : List String :=
  ["Discover " ++ loc ++ " attractions",
   "Local dining experiences",
   "Cultural activities",
   "Relaxation and exploration time"]

/-- Character class of the leading-marker strip regex applied to activity
lines: hyphen, bullet, asterisk or whitespace. -/
def isActLineMarker (c : Char) : Bool :=
  c == '-' || c == '•' || c == '*' || isJsSpace c

/-- The activity line filter of generateItinerary: the line includes a hyphen,
a bullet or an asterisk anywhere. -/
def hasMarkerChar (l : List Char) : Bool :=
  l.contains '-' || l.contains '•' || l.contains '*'

/-- The non-blank lines of the trimmed day fragment (split on newline, then
filter on truthiness of the trimmed line). -/
def dayLines (frag : List Char) : List (List Char) :=
  (splitNl (jsTrim frag)).filter (fun ln => !(jsTrim ln).isEmpty)

/-- Activity extraction for one day fragment: lines after the first, filtered
to marker lines, each stripped of its leading marker run and trimmed, nonempty
results kept, and at most the first four taken. -/
def rawActivities (frag : List Char) : List (List Char) :=
  (((((dayLines frag).drop 1).filter hasMarkerChar).map
      (fun ln => jsTrim (ln.dropWhile isActLineMarker))).filter
      (fun a => !a.isEmpty)).take 4

/-- Title extraction for one day fragment: the first non-blank line with every
colon and hyphen removed and then trimmed; when there is no such line or the
result is empty, a synthesized title referencing the location. -/
def dayTitle (i : Nat) (frag : List Char) (loc : String) : String :=
  match (dayLines frag).head? with
  | none => "Day " ++ toString i ++ " in " ++ loc
  | some l0 =>
    let t := jsTrim (l0.filter (fun c => !(c == ':' || c == '-')))
    if t.isEmpty then "Day " ++ toString i ++ " in " ++ loc else String.mk t

/-- The activities field for one day fragment, substituting the fixed fallback
set when extraction yields nothing. -/
def dayActivities (frag : List Char) (loc : String) : List String :=
  if (rawActivities frag).isEmpty then fallbackActivities loc
  else (rawActivities frag).map String.mk

/-- The day record built by one iteration of the day loop. -/
def mkDayPlan (i : Nat) (frag : List Char) (loc : String) : DayPlan :=
  { day := i, title := dayTitle i frag loc, activities := dayActivities frag loc }

/-- The day loop of generateItinerary: for index i while i is below the stop
bound (fuel is the remaining iteration count), build a day from the fragment at
index i of the split result. An out-of-range access is modelled as none; the
totality theorem shows it never occurs. -/
def daysLoopN (markers : List (List Char)) (loc : String) : Nat → Nat → Option (List DayPlan)
  | _, 0 => some []
  | i, Nat.succ n =>
    match markers.get? i with
    | none => none
    | some frag =>
      match daysLoopN markers loc (i + 1) n with
      | none => none
      | some rest => some (mkDayPlan i frag loc :: rest)

/-- The synthetic day pushed by one iteration of the padding loop, given the
day number it receives. -/
def padEntry (loc : String) (n : Nat) : DayPlan :=
  { day := n,
    title := "Day " ++ toString n ++ " - Exploring " ++ loc,
    activities := padActivities loc }

/-- One iteration of the padding loop body. -/
def padStep (loc : String) (days : List DayPlan) : List DayPlan :=
  days ++ [padEntry loc (days.length + 1)]

/-- The padding while loop, with an iteration-count fuel; three iterations
always reach the exit condition of at least three days. -/
def padLoop (loc : String) : Nat → List DayPlan → List DayPlan
  | 0, days => days
  | Nat.succ n, days => if days.length < 3 then padLoop loc n (padStep loc days) else days

/-- The padding loop of generateItinerary: append synthetic days while the day
list has fewer than three entries. -/
def padDays (loc : String) (days : List DayPlan) : List DayPlan :=
  padLoop loc 3 days

/-- The itinerary text parsing of generateItinerary, as a function of the
already obtained itinerary text and location hint: duration extraction, day
segmentation with the loop bound of eight, per-day title and activity
extraction, and padding. -/
def parseItinerary (text loc : String) : Option (List DayPlan × String) :=
  match daysLoopN (splitDayMarkers text.toList) loc 1
      (min (splitDayMarkers text.toList).length 8 - 1) with
  | none => none
  | some days => some (padDays loc days, parsedDuration text)

/-- The day list built from a list of fragments with sequential indices
starting at i: the collected result of the day loop. -/
def buildDays (loc : String) : Nat → List (List Char) → List DayPlan
  | _, [] => []
  | i, f :: fs => mkDayPlan i f loc :: buildDays loc (i + 1) fs

/-- The day-body fragments the day loop consumes: everything after the
preamble piece, capped at seven. -/
def realFragments (text : String) : List (List Char) :=
  ((splitDayMarkers text.toList).drop 1).take 7

/-- Occurrence, anywhere in the text, of a number followed, after optional
whitespace, by the word day case-insensitively: the pattern the duration
regex searches for. -/
def hasDayCount (cs : List Char) : Prop :=
  ∃ p ds ws d a y r, cs = p ++ ds ++ ws ++ d :: a :: y :: r ∧ ds ≠ [] ∧
    (∀ c ∈ ds, isDigitC c) ∧ (∀ c ∈ ws, isJsSpace c) ∧ dayWord d a y

/-- Occurrence, anywhere in the text, of the day-marker pattern: the word day,
optional whitespace, then at least one digit, case-insensitively. -/
def hasDayMarker (cs : List Char) : Prop :=
  ∃ p d a y ws e r, cs = p ++ d :: a :: y :: (ws ++ e :: r) ∧ dayWord d a y ∧
    (∀ c ∈ ws, isJsSpace c) ∧ isDigitC e

/-- The title computation as claim C6 words it: the first non-blank line with
only its leading colons and hyphens stripped and then trimmed, characters
elsewhere in the line preserved. -/
def leadingStripTitle (n : Nat) (frag : List Char) (loc : String) : String :=
  match (dayLines frag).head? with
  | none => "Day " ++ toString n ++ " in " ++ loc
  | some l0 =>
    let t := jsTrim (l0.dropWhile (fun c => c == ':' || c == '-'))
    if t.isEmpty then "Day " ++ toString n ++ " in " ++ loc else String.mk t

/-- JavaScript truthiness of a possibly absent string value. -/
def jsTruthy (s : Option String) : Bool := !(s.getD "").isEmpty

/-- The environment variables the serve handler reads. -/
structure EnvConfig where
  supabaseUrl : Option String
  supabaseKey : Option String
  openaiApiKey : Option String
  googleCloudApiKey : Option String
deriving DecidableEq, Repr

/-- All four required configuration values are present and non-empty. -/
def envOk (env : EnvConfig) : Bool :=
  jsTruthy env.supabaseUrl && jsTruthy env.supabaseKey &&
  jsTruthy env.openaiApiKey && jsTruthy env.googleCloudApiKey

/-- The response as observed by the caller: the HTTP status and, for
failures, the error field of the JSON body. -/
structure HttpResponse where
  status : Nat
  errorBody : Option String
deriving DecidableEq, Repr

/-- The guard sequence at the top of the serve handler, in source order. A some
result is the message of the Error the handler throws at that guard. -/
def validateRequest (videoUrl : Option String) (env : EnvConfig) (auth : Option String) :
    Option String :=
  if !jsTruthy videoUrl then some "Video URL is required"
  else if !jsTruthy env.supabaseUrl || !jsTruthy env.supabaseKey then
    some "Supabase configuration is missing"
  else if !jsTruthy env.openaiApiKey then some "OpenAI API key is not configured"
  else if !jsTruthy env.googleCloudApiKey then
    some "Google Cloud Vision API key is not configured"
  else if !jsTruthy auth then some "Authorization required"
  else none

/-- The serve handler around its catch clause: a thrown validation error is
converted to status 500 with the message as the error field of the JSON body;
the rest argument abstracts the outcome of the remaining pipeline (user
resolution, video analysis, itinerary generation, persistence). -/
def handleRequest (videoUrl : Option String) (env : EnvConfig) (auth : Option String)
    (rest : HttpResponse) : HttpResponse :=
  match validateRequest videoUrl env auth with
  | some msg => { status := 500, errorBody := some msg }
  | none => rest

/-! Supporting lemmas about the character classes and scans. -/

theorem isJsSpace_not_digit {c : Char} (h : isJsSpace c = true) : isDigitC c = false := by
  simp only [isJsSpace, Bool.or_eq_true, decide_eq_true_eq, Bool.and_eq_true] at h
  simp only [isDigitC, Bool.and_eq_false_iff, decide_eq_false_iff_not, not_le]
  omega

theorem isDigitC_not_space {c : Char} (h : isDigitC c = true) : isJsSpace c = false := by
  simp only [isDigitC, Bool.and_eq_true, decide_eq_true_eq] at h
  simp only [isJsSpace, Bool.or_eq_false_iff, decide_eq_false_iff_not, Bool.and_eq_false_iff,
    not_le]
  omega

theorem dayWord_head_not_digit {d a y : Char} (h : dayWord d a y = true) :
    isDigitC d = false := by
  simp only [dayWord, Bool.and_eq_true, Bool.or_eq_true, beq_iff_eq] at h
  rcases h with ⟨hd | hd, _, _⟩ <;> subst hd <;> decide

theorem dayWord_head_not_space {d a y : Char} (h : dayWord d a y = true) :
    isJsSpace d = false := by
  simp only [dayWord, Bool.and_eq_true, Bool.or_eq_true, beq_iff_eq] at h
  rcases h with ⟨hd | hd, _, _⟩ <;> subst hd <;> decide

theorem dropWhile_append_all {p : Char → Bool} :
    ∀ {l₁ : List Char} (l₂ : List Char), (∀ c ∈ l₁, p c = true) →
      (l₁ ++ l₂).dropWhile p = l₂.dropWhile p := by
  intro l₁
  induction l₁ with
  | nil => intro l₂ _; rfl
  | cons c t ih =>
    intro l₂ h
    have hc : p c = true := h c (by simp)
    simp only [List.cons_append, List.dropWhile_cons_of_pos hc]
    exact ih l₂ (fun x hx => h x (by simp [hx]))

theorem length_dropWhile_le' {p : Char → Bool} : ∀ (l : List Char),
    (l.dropWhile p).length ≤ l.length := by
  intro l
  induction l with
  | nil => simp [List.dropWhile]
  | cons c t ih =>
    rw [List.dropWhile_cons]
    split
    · exact Nat.le_trans ih (by simp)
    · simp

theorem dayMarkerAt_length_lt {l rest : List Char} (h : dayMarkerAt l = some rest) :
    rest.length < l.length := by
  match l with
  | [] => simp [dayMarkerAt] at h
  | [d] => simp [dayMarkerAt] at h
  | [d, a] => simp [dayMarkerAt] at h
  | d :: a :: y :: r =>
    simp only [dayMarkerAt] at h
    split at h
    next hw =>
      split at h
      next c t heq =>
        split at h
        next hd =>
          rw [Option.some.injEq] at h
          subst h
          have h1 : (t.dropWhile isDigitC).length ≤ t.length := length_dropWhile_le' t
          have h2 : (r.dropWhile isJsSpace).length ≤ r.length := length_dropWhile_le' r
          rw [heq] at h2
          simp only [List.length_cons] at h2 ⊢
          omega
        next => simp at h
      next heq => simp at h
    next => simp at h

theorem splitAuxF_nil (n : Nat) (acc : List Char) : splitAuxF n [] acc = [acc.reverse] := by
  cases n <;> rfl

theorem splitAuxF_ne_nil : ∀ (n : Nat) (l acc : List Char), splitAuxF n l acc ≠ [] := by
  intro n
  induction n with
  | zero => intro l acc; cases l <;> simp [splitAuxF]
  | succ n ih =>
    intro l acc
    cases l with
    | nil => simp [splitAuxF]
    | cons c cs =>
      simp only [splitAuxF]
      rcases hm : dayMarkerAt (c :: cs) with _ | rest
      · exact ih cs (c :: acc)
      · simp

theorem splitAuxF_no_marker :
    ∀ (n : Nat) (l acc : List Char), (∀ i, dayMarkerAt (l.drop i) = none) →
      splitAuxF n l acc = [acc.reverse ++ l] := by
  intro n
  induction n with
  | zero => intro l acc _; cases l <;> simp [splitAuxF]
  | succ n ih =>
    intro l acc h
    cases l with
    | nil => simp [splitAuxF]
    | cons c cs =>
      have h0 : dayMarkerAt (c :: cs) = none := h 0
      simp only [splitAuxF, h0]
      rw [ih cs (c :: acc) (fun i => h (i + 1))]
      simp

theorem splitAuxF_fuel (k : Nat) :
    ∀ (n : Nat) (l acc : List Char), l.length ≤ n →
      splitAuxF n l acc = splitAuxF (n + k) l acc := by
  intro n
  induction n with
  | zero =>
    intro l acc h
    have hl : l = [] := List.eq_nil_of_length_eq_zero (Nat.le_zero.mp h)
    subst hl
    rw [splitAuxF_nil, splitAuxF_nil]
  | succ n ih =>
    intro l acc h
    cases l with
    | nil => rw [splitAuxF_nil, splitAuxF_nil]
    | cons c cs =>
      have hk : n + 1 + k = (n + k) + 1 := by omega
      rw [hk]
      rcases hm : dayMarkerAt (c :: cs) with _ | rest
      · simp only [splitAuxF, hm]
        exact ih cs (c :: acc) (by simpa using h)
      · simp only [splitAuxF, hm]
        have hlt : rest.length < (c :: cs).length := dayMarkerAt_length_lt hm
        rw [ih rest [] (by simp only [List.length_cons] at hlt h; omega)]

/-! Characterization of the day loop, the padding loop and the whole parse. -/

theorem daysLoopN_eq (markers : List (List Char)) (loc : String) :
    ∀ (fuel i : Nat), i + fuel ≤ markers.length →
      daysLoopN markers loc i fuel =
        some (buildDays loc i ((markers.drop i).take fuel)) := by
  intro fuel
  induction fuel with
  | zero => intro i _; simp [daysLoopN, buildDays]
  | succ n ih =>
    intro i h
    have hi : i < markers.length := by omega
    have hget : markers.get? i = some (markers.get ⟨i, hi⟩) := List.get?_eq_get hi
    simp only [daysLoopN, hget]
    rw [ih (i + 1) (by omega)]
    have hdrop : markers.drop i = markers.get ⟨i, hi⟩ :: markers.drop (i + 1) := by
      rw [List.drop_eq_getElem_cons hi]
      simp
    rw [hdrop]
    simp [buildDays]

theorem daysLoopN_parse (text loc : String) :
    daysLoopN (splitDayMarkers text.toList) loc 1
        (min (splitDayMarkers text.toList).length 8 - 1) =
      some (buildDays loc 1 (realFragments text)) := by
  have hne : splitDayMarkers text.toList ≠ [] := splitAuxF_ne_nil _ _ _
  have hlen : 1 ≤ (splitDayMarkers text.toList).length := List.length_pos.mpr hne
  rw [daysLoopN_eq (splitDayMarkers text.toList) loc _ 1 (by omega)]
  have hfrag : ((splitDayMarkers text.toList).drop 1).take
      (min (splitDayMarkers text.toList).length 8 - 1) = realFragments text := by
    unfold realFragments
    rcases Nat.le_total (splitDayMarkers text.toList).length 8 with h8 | h8
    · have h1 : ((splitDayMarkers text.toList).drop 1).length =
          (splitDayMarkers text.toList).length - 1 := by simp
      rw [List.take_of_length_le (by omega), List.take_of_length_le (by omega)]
    · have hm : min (splitDayMarkers text.toList).length 8 = 8 := by omega
      rw [hm]
  rw [hfrag]

theorem parseItinerary_eq (text loc : String) :
    parseItinerary text loc =
      some (padDays loc (buildDays loc 1 (realFragments text)), parsedDuration text) := by
  unfold parseItinerary
  rw [daysLoopN_parse text loc]

theorem padStep_length (loc : String) (ds : List DayPlan) :
    (padStep loc ds).length = ds.length + 1 := by
  simp [padStep]

theorem padLoop_eq (loc : String) :
    ∀ (fuel : Nat) (ds : List DayPlan), 3 ≤ ds.length + fuel →
      padLoop loc fuel ds =
        ds ++ (List.range' (ds.length + 1) (3 - ds.length)).map (padEntry loc) := by
  intro fuel
  induction fuel with
  | zero =>
    intro ds h
    have h0 : 3 - ds.length = 0 := by omega
    simp [padLoop, h0]
  | succ n ih =>
    intro ds h
    by_cases hlt : ds.length < 3
    · simp only [padLoop, if_pos hlt]
      rw [ih (padStep loc ds) (by rw [padStep_length]; omega)]
      rw [padStep_length]
      have hr : List.range' (ds.length + 1) (3 - ds.length) =
          (ds.length + 1) :: List.range' (ds.length + 1 + 1) (3 - (ds.length + 1)) := by
        have h3 : 3 - ds.length = (3 - (ds.length + 1)) + 1 := by omega
        rw [h3, List.range'_succ]
      rw [hr]
      simp [padStep, List.append_assoc]
    · have h0 : 3 - ds.length = 0 := by omega
      simp [padLoop, hlt, h0]

theorem padDays_eq (loc : String) (ds : List DayPlan) :
    padDays loc ds = ds ++ (List.range' (ds.length + 1) (3 - ds.length)).map (padEntry loc) :=
  padLoop_eq loc 3 ds (by omega)

theorem padDays_length (loc : String) (ds : List DayPlan) :
    (padDays loc ds).length = ds.length + (3 - ds.length) := by
  rw [padDays_eq]
  simp

theorem buildDays_length (loc : String) : ∀ (i : Nat) (fs : List (List Char)),
    (buildDays loc i fs).length = fs.length := by
  intro i fs
  induction fs generalizing i with
  | nil => rfl
  | cons f fs ih => simp [buildDays, ih]

theorem buildDays_map_day (loc : String) : ∀ (i : Nat) (fs : List (List Char)),
    (buildDays loc i fs).map DayPlan.day = List.range' i fs.length := by
  intro i fs
  induction fs generalizing i with
  | nil => rfl
  | cons f fs ih =>
    simp only [buildDays, List.map_cons, List.length_cons, List.range'_succ]
    rw [ih (i + 1)]
    rfl

theorem buildDays_get? (loc : String) : ∀ (i k : Nat) (fs : List (List Char)),
    (buildDays loc i fs).get? k = (fs.get? k).map (fun f => mkDayPlan (i + k) f loc) := by
  intro i k fs
  induction fs generalizing i k with
  | nil => simp [buildDays]
  | cons f fs ih =>
    cases k with
    | zero => simp [buildDays]
    | succ k =>
      simp only [buildDays, List.get?_cons_succ]
      rw [ih (i + 1) k]
      have : i + 1 + k = i + (k + 1) := by omega
      rw [this]

theorem mem_buildDays (loc : String) : ∀ {i : Nat} {fs : List (List Char)} {d : DayPlan},
    d ∈ buildDays loc i fs → ∃ j f, d = mkDayPlan j f loc := by
  intro i fs
  induction fs generalizing i with
  | nil => intro d hd; simp [buildDays] at hd
  | cons f fs ih =>
    intro d hd
    simp only [buildDays, List.mem_cons] at hd
    rcases hd with hd | hd
    · exact ⟨i, f, hd⟩
    · exact ih hd

theorem mkDayPlan_activities_bounds (i : Nat) (frag : List Char) (loc : String) :
    1 ≤ (mkDayPlan i frag loc).activities.length ∧
      (mkDayPlan i frag loc).activities.length ≤ 4 := by
  simp only [mkDayPlan, dayActivities]
  by_cases he : (rawActivities frag).isEmpty
  · rw [if_pos he]
    simp [fallbackActivities]
  · rw [if_neg he]
    have hne : rawActivities frag ≠ [] := by
      intro hn
      rw [hn] at he
      simp at he
    constructor
    · simp only [List.length_map]
      exact Nat.succ_le_of_lt (List.length_pos.mpr hne)
    · simp only [List.length_map, rawActivities]
      exact List.length_take_le 4 _

/-! Soundness and completeness of the two regex scans with respect to the
declarative occurrence predicates. -/

theorem durCapAt_sound {l ds : List Char} (h : durCapAt l = some ds) :
    ∃ ws d a y r, l = ds ++ ws ++ d :: a :: y :: r ∧ ds ≠ [] ∧
      (∀ c ∈ ds, isDigitC c) ∧ (∀ c ∈ ws, isJsSpace c) ∧ dayWord d a y := by
  cases l with
  | nil => simp [durCapAt] at h
  | cons c t =>
    simp only [durCapAt] at h
    split at h
    next hc =>
      split at h
      next d a y r2 heq =>
        split at h
        next hw =>
          rw [Option.some.injEq] at h
          subst h
          refine ⟨(t.dropWhile isDigitC).takeWhile isJsSpace, d, a, y, r2, ?_, by simp, ?_, ?_, hw⟩
          · have h1 : t = t.takeWhile isDigitC ++ t.dropWhile isDigitC :=
              (List.takeWhile_append_dropWhile isDigitC t).symm
            have h2 : t.dropWhile isDigitC =
                (t.dropWhile isDigitC).takeWhile isJsSpace ++
                  (t.dropWhile isDigitC).dropWhile isJsSpace :=
              (List.takeWhile_append_dropWhile isJsSpace (t.dropWhile isDigitC)).symm
            rw [heq] at h2
            calc c :: t = c :: (t.takeWhile isDigitC ++ t.dropWhile isDigitC) := by rw [← h1]
              _ = (c :: t.takeWhile isDigitC) ++ t.dropWhile isDigitC := rfl
              _ = (c :: t.takeWhile isDigitC) ++
                    ((t.dropWhile isDigitC).takeWhile isJsSpace ++ d :: a :: y :: r2) := by
                    rw [← h2]
              _ = (c :: t.takeWhile isDigitC) ++
                    (t.dropWhile isDigitC).takeWhile isJsSpace ++ d :: a :: y :: r2 := by
                    rw [List.append_assoc]
          · intro x hx
            rcases List.mem_cons.mp hx with hx | hx
            · exact hx ▸ hc
            · exact List.mem_takeWhile_imp hx
          · intro x hx
            exact List.mem_takeWhile_imp hx
        next => simp at h
      next => simp at h
    next => simp at h

theorem hasDayCount_of_durCapAt {cs ds : List Char} {i : Nat}
    (h : durCapAt (cs.drop i) = some ds) : hasDayCount cs := by
  obtain ⟨ws, d, a, y, r, hdec, hne, hdig, hsp, hw⟩ := durCapAt_sound h
  refine ⟨cs.take i, ds, ws, d, a, y, r, ?_, hne, hdig, hsp, hw⟩
  conv_lhs => rw [← List.take_append_drop i cs]
  rw [hdec]
  simp [List.append_assoc]

theorem firstDurCap_some_at {cs ds : List Char} (h : firstDurCap cs = some ds) :
    ∃ i, durCapAt (cs.drop i) = some ds := by
  induction cs with
  | nil => simp [firstDurCap] at h
  | cons c t ih =>
    simp only [firstDurCap] at h
    rcases hm : durCapAt (c :: t) with _ | ds'
    · rw [hm] at h
      obtain ⟨i, hi⟩ := ih h
      exact ⟨i + 1, hi⟩
    · rw [hm] at h
      simp only [Option.some.injEq] at h
      subst h
      exact ⟨0, hm⟩

theorem hasDayCount_of_firstDurCap {cs ds : List Char} (h : firstDurCap cs = some ds) :
    hasDayCount cs := by
  obtain ⟨i, hi⟩ := firstDurCap_some_at h
  exact hasDayCount_of_durCapAt hi

theorem dropWhile_eq_self_of_head {p : Char → Bool} {c : Char} {t : List Char}
    (h : p c = false) : (c :: t).dropWhile p = c :: t := by
  simp [List.dropWhile_cons, h]

theorem durCapAt_of_hasDayCount {cs : List Char} (h : hasDayCount cs) :
    ∃ i, (durCapAt (cs.drop i)).isSome := by
  obtain ⟨p, ds, ws, d, a, y, r, hdec, hne, hdig, hsp, hw⟩ := h
  refine ⟨p.length, ?_⟩
  have hdrop : cs.drop p.length = ds ++ ws ++ d :: a :: y :: r := by
    rw [hdec]
    have hre : p ++ ds ++ ws ++ d :: a :: y :: r =
        p ++ (ds ++ ws ++ d :: a :: y :: r) := by
      simp [List.append_assoc]
    rw [hre, List.drop_left]
  rw [hdrop]
  rcases ds with _ | ⟨e, ds'⟩
  · exact absurd rfl hne
  · have he : isDigitC e = true := hdig e (by simp)
    have ht0 : (ds' ++ (ws ++ d :: a :: y :: r)).dropWhile isDigitC =
        ws ++ d :: a :: y :: r := by
      rw [dropWhile_append_all (ws ++ d :: a :: y :: r)
        (fun c hc => hdig c (by simp [hc]))]
      rcases ws with _ | ⟨w, ws'⟩
      · simp only [List.nil_append]
        exact dropWhile_eq_self_of_head (dayWord_head_not_digit hw)
      · exact dropWhile_eq_self_of_head (isJsSpace_not_digit (hsp w (by simp)))
    have hscrut : (((ds' ++ (ws ++ d :: a :: y :: r)).dropWhile isDigitC).dropWhile
        isJsSpace) = d :: a :: y :: r := by
      rw [ht0, dropWhile_append_all (d :: a :: y :: r) hsp]
      exact dropWhile_eq_self_of_head (dayWord_head_not_space hw)
    have hshape : (e :: ds') ++ ws ++ d :: a :: y :: r =
        e :: (ds' ++ (ws ++ d :: a :: y :: r)) := by simp
    rw [hshape]
    simp [durCapAt, he, hscrut, hw]

theorem firstDurCap_isSome_of_at : ∀ (cs : List Char) (i : Nat),
    (durCapAt (cs.drop i)).isSome → (firstDurCap cs).isSome := by
  intro cs
  induction cs with
  | nil => intro i h; simp [List.drop_nil, durCapAt] at h
  | cons c t ih =>
    intro i h
    cases i with
    | zero =>
      simp only [List.drop_zero] at h
      simp only [firstDurCap]
      rcases hm : durCapAt (c :: t) with _ | ds
      · rw [hm] at h; simp at h
      · simp
    | succ i =>
      have h' : (durCapAt (t.drop i)).isSome := h
      have hrec := ih i h'
      simp only [firstDurCap]
      rcases hm : durCapAt (c :: t) with _ | ds
      · exact hrec
      · simp

theorem not_hasDayCount_of_none {cs : List Char} (h : firstDurCap cs = none) :
    ¬ hasDayCount cs := by
  intro hc
  obtain ⟨i, hi⟩ := durCapAt_of_hasDayCount hc
  have hs := firstDurCap_isSome_of_at cs i hi
  rw [h] at hs
  simp at hs

theorem dayMarkerAt_sound {l rest : List Char} (h : dayMarkerAt l = some rest) :
    ∃ d a y ws e r, l = d :: a :: y :: (ws ++ e :: r) ∧ dayWord d a y ∧
      (∀ c ∈ ws, isJsSpace c) ∧ isDigitC e := by
  match l with
  | [] => simp [dayMarkerAt] at h
  | [d] => simp [dayMarkerAt] at h
  | [d, a] => simp [dayMarkerAt] at h
  | d :: a :: y :: r0 =>
    simp only [dayMarkerAt] at h
    split at h
    next hw =>
      split at h
      next c t heq =>
        split at h
        next hd =>
          refine ⟨d, a, y, r0.takeWhile isJsSpace, c, t, ?_, hw, ?_, hd⟩
          · have h1 : r0 = r0.takeWhile isJsSpace ++ r0.dropWhile isJsSpace :=
              (List.takeWhile_append_dropWhile isJsSpace r0).symm
            rw [heq] at h1
            conv_lhs => rw [h1]
          · intro x hx
            exact List.mem_takeWhile_imp hx
        next => simp at h
      next => simp at h
    next => simp at h

theorem hasDayMarker_of_dayMarkerAt {cs rest : List Char} {i : Nat}
    (h : dayMarkerAt (cs.drop i) = some rest) : hasDayMarker cs := by
  obtain ⟨d, a, y, ws, e, r, hdec, hw, hsp, he⟩ := dayMarkerAt_sound h
  refine ⟨cs.take i, d, a, y, ws, e, r, ?_, hw, hsp, he⟩
  conv_lhs => rw [← List.take_append_drop i cs]
  rw [hdec]

theorem no_marker_positions {cs : List Char} (h : ¬ hasDayMarker cs) :
    ∀ i, dayMarkerAt (cs.drop i) = none := by
  intro i
  rcases hm : dayMarkerAt (cs.drop i) with _ | rest
  · rfl
  · exact absurd (hasDayMarker_of_dayMarkerAt hm) h

theorem dayMarkerAt_of_hasDayMarker {cs : List Char} (h : hasDayMarker cs) :
    ∃ i, (dayMarkerAt (cs.drop i)).isSome := by
  obtain ⟨p, d, a, y, ws, e, r, hdec, hw, hsp, he⟩ := h
  refine ⟨p.length, ?_⟩
  have hdrop : cs.drop p.length = d :: a :: y :: (ws ++ e :: r) := by
    rw [hdec, List.drop_left]
  rw [hdrop]
  have hscrut : (ws ++ e :: r).dropWhile isJsSpace = e :: r := by
    rw [dropWhile_append_all (e :: r) hsp]
    exact dropWhile_eq_self_of_head (isDigitC_not_space he)
  simp [dayMarkerAt, hw, hscrut, he]

theorem not_hasDayMarker_of_scan {cs : List Char}
    (h : ∀ i < cs.length, dayMarkerAt (cs.drop i) = none) : ¬ hasDayMarker cs := by
  intro hm
  obtain ⟨i, hi⟩ := dayMarkerAt_of_hasDayMarker hm
  by_cases hlt : i < cs.length
  · rw [h i hlt] at hi
    simp at hi
  · rw [List.drop_eq_nil_of_le (by omega)] at hi
    simp [dayMarkerAt] at hi

/-! Decomposition of a successful parse into its day list and duration. -/

theorem parse_inv {text loc : String} {days : List DayPlan} {dur : String}
    (h : parseItinerary text loc = some (days, dur)) :
    days = padDays loc (buildDays loc 1 (realFragments text)) ∧
      dur = parsedDuration text := by
  have h2 := parseItinerary_eq text loc
  rw [h] at h2
  simp only [Option.some.injEq, Prod.mk.injEq] at h2
  exact h2

/-! The claim theorems. -/

/-- C1: the itinerary text parsing of generateItinerary (duration extraction,
day segmentation, title and activity extraction, padding), viewed as a function
of the itinerary text and the location hint, is total: for every input,
including the empty string, every array access performed by the day loop is in
bounds (no exception), and a days/duration pair of the Itinerary shape is
returned, with a nonempty day list. -/
theorem c1_itinerary_parse_total (text loc : String) :
    ∃ days dur, parseItinerary text loc = some (days, dur) ∧ days ≠ [] := by
  refine ⟨padDays loc (buildDays loc 1 (realFragments text)), parsedDuration text,
    parseItinerary_eq text loc, ?_⟩
  intro hnil
  have hlen := padDays_length loc (buildDays loc 1 (realFragments text))
  rw [hnil] at hlen
  simp only [List.length_nil] at hlen
  omega

/-- C2: for every input text and location, the parsed day list has at least 3
entries (the padding loop) and at most 7 entries (only the first 7 day-body
fragments of the split are consumed by the day loop). -/
theorem c2_day_list_bounds (text loc : String) (days : List DayPlan) (dur : String)
    (h : parseItinerary text loc = some (days, dur)) :
    3 ≤ days.length ∧ days.length ≤ 7 := by
  obtain ⟨hd, _⟩ := parse_inv h
  subst hd
  rw [padDays_length, buildDays_length]
  have h7 : (realFragments text).length ≤ 7 := by
    unfold realFragments
    exact List.length_take_le 7 _
  omega

/-- C3: every DayPlan in the parsed output has between 1 and 4 activities:
extraction caps the marker lines at the first 4, a day with zero qualifying
lines receives the fixed 3-entry fallback set, and padded days receive the
fixed 4-entry set. -/
theorem c3_activities_bounds (text loc : String) (days : List DayPlan) (dur : String)
    (h : parseItinerary text loc = some (days, dur)) (d : DayPlan) (hdm : d ∈ days) :
    1 ≤ d.activities.length ∧ d.activities.length ≤ 4 := by
  obtain ⟨hd, _⟩ := parse_inv h
  subst hd
  rw [padDays_eq] at hdm
  rcases List.mem_append.mp hdm with hl | hr
  · obtain ⟨j, f, rfl⟩ := mem_buildDays loc hl
    exact mkDayPlan_activities_bounds j f loc
  · obtain ⟨n, _, rfl⟩ := List.mem_map.mp hr
    simp [padEntry, padActivities]

/-- C4: the day numbers of the parsed output are exactly 1 through the number
of days, assigned by position in parse order with no gaps, for every input
text; in particular a day number appearing in the source text is never copied
into the output numbering. -/
theorem c4_sequential_day_numbers (text loc : String) (days : List DayPlan) (dur : String)
    (h : parseItinerary text loc = some (days, dur)) :
    days.map DayPlan.day = List.range' 1 days.length := by
  obtain ⟨hd, _⟩ := parse_inv h
  subst hd
  rw [padDays_eq, List.map_append, buildDays_map_day, List.map_map]
  have hcomp : (DayPlan.day ∘ padEntry loc) = fun n => n := funext (fun n => rfl)
  rw [hcomp, List.map_id', buildDays_length, List.length_append, buildDays_length,
    List.length_map, List.length_range']
  have h1 : (realFragments text).length + 1 = 1 + (realFragments text).length :=
    Nat.add_comm _ _
  have h2 : (realFragments text).length + (3 - (realFragments text).length) =
      (3 - (realFragments text).length) + (realFragments text).length :=
    Nat.add_comm _ _
  rw [h1, h2, List.range'_append_1]

/-- C5: the duration is taken from the first case-insensitive match of a
number followed by the word day, formatted with a Days suffix; a text with no
such occurrence yields 5 Days, and a text whose first match captures the digit
7 yields 7 Days. -/
theorem c5_duration_extraction (text : String) :
    (¬ hasDayCount text.toList → parsedDuration text = "5 Days") ∧
    (firstDurCap text.toList = some ['7'] → parsedDuration text = "7 Days") := by
  constructor
  · intro h
    rcases hf : firstDurCap text.toList with _ | ds
    · simp only [parsedDuration, hf]
    · exact absurd (hasDayCount_of_firstDurCap hf) h
  · intro h7
    simp only [parsedDuration, h7]
    decide

/-- C6 counterexample: the claim predicts that characters other than leading
colons and hyphens are preserved in the title, but the replace call is global:
on the fragment whose first line contains an interior hyphen, the code yields
the title with that hyphen removed, which differs from the leading-strip
reading of the claim. -/
theorem c6_counterexample :
    realFragments "Day 1: Best-Town tour\n- eat" = [(": Best-Town tour\n- eat").toList] ∧
    (parseItinerary "Day 1: Best-Town tour\n- eat" "Paris").map
        (fun r => r.1.head?.map DayPlan.title) = some (some "BestTown tour") ∧
    leadingStripTitle 1 (": Best-Town tour\n- eat").toList "Paris" = "Best-Town tour" ∧
    ("BestTown tour" : String) ≠ "Best-Town tour" :=
  ⟨by decide, by decide, by decide, by decide⟩

/-- C6 amended: for every kept day fragment, the DayPlan title at its position
is the fragment's first non-blank line with ALL colons and hyphens removed
(wherever they occur in the line) and surrounding whitespace trimmed; if the
line is empty after the removal (or there is no such line), the title is
synthesized as Day n in the location hint. -/
theorem c6_amended_title (text loc : String) (days : List DayPlan) (dur : String)
    (h : parseItinerary text loc = some (days, dur)) (k : Nat) (frag : List Char)
    (hf : (realFragments text).get? k = some frag) :
    ∃ d, days.get? k = some d ∧ d.title = dayTitle (k + 1) frag loc := by
  obtain ⟨hd, _⟩ := parse_inv h
  subst hd
  have hk : k < (realFragments text).length := by
    obtain ⟨hlt, _⟩ := List.get?_eq_some.mp hf
    exact hlt
  rw [padDays_eq, List.get?_append (by rw [buildDays_length]; exact hk)]
  rw [buildDays_get?, hf]
  refine ⟨mkDayPlan (1 + k) frag loc, rfl, ?_⟩
  rw [Nat.add_comm 1 k]
  rfl

/-- C7: for every input text with no occurrence of the day-marker pattern, the
output is exactly 3 synthetic days, in order, titled Day 1 through Day 3
Exploring the location hint. -/
theorem c7_no_day_markers (text loc : String) (h : ¬ hasDayMarker text.toList) :
    parseItinerary text loc =
      some ([⟨1, "Day 1 - Exploring " ++ loc, padActivities loc⟩,
             ⟨2, "Day 2 - Exploring " ++ loc, padActivities loc⟩,
             ⟨3, "Day 3 - Exploring " ++ loc, padActivities loc⟩], parsedDuration text) := by
  have hsplit : splitDayMarkers text.toList = [text.toList] := by
    unfold splitDayMarkers
    rw [splitAuxF_no_marker _ _ [] (no_marker_positions h)]
    rfl
  have hfrag : realFragments text = [] := by
    unfold realFragments
    rw [hsplit]
    rfl
  rw [parseItinerary_eq text loc, hfrag]
  have hbd : buildDays loc 1 ([] : List (List Char)) = [] := rfl
  rw [hbd, padDays_eq]
  simp only [List.nil_append, List.length_nil]
  have hr : List.range' (0 + 1) (3 - 0) = [1, 2, 3] := rfl
  rw [hr]
  simp only [List.map_cons, List.map_nil, padEntry]
  rw [show ("Day " ++ toString (1 : Nat) ++ " - Exploring ") = "Day 1 - Exploring " by decide]
  rw [show ("Day " ++ toString (2 : Nat) ++ " - Exploring ") = "Day 2 - Exploring " by decide]
  rw [show ("Day " ++ toString (3 : Nat) ++ " - Exploring ") = "Day 3 - Exploring " by decide]

/-- C8 counterexample: the claim predicts that padded synthetic days carry the
same fixed fallback activity set that a real day with zero extracted
activities receives, but the two sets differ: on an input with one real day
with zero activities, the real day gets the 3-entry fallback set while the
padded days get the different 4-entry padding set. -/
theorem c8_counterexample :
    (parseItinerary "day 1 hi" "X").map (fun r => r.1.map DayPlan.activities) =
      some [fallbackActivities "X", padActivities "X", padActivities "X"] ∧
    padActivities "X" ≠ fallbackActivities "X" :=
  ⟨by decide, by decide⟩

/-- C8 amended: whenever the parsed day list has fewer than 3 entries, the
padding loop appends synthetic DayPlans titled Day n Exploring the location
hint whose activities are the fixed 4-entry padding set (which differs from
the zero-extraction fallback set), numbered sequentially continuing from the
last day. -/
theorem c8_amended_padding (text loc : String) (days : List DayPlan) (dur : String)
    (h : parseItinerary text loc = some (days, dur))
    (hlt : (realFragments text).length < 3) :
    days = buildDays loc 1 (realFragments text) ++
      (List.range' ((realFragments text).length + 1) (3 - (realFragments text).length)).map
        (padEntry loc) ∧
    padActivities loc ≠ fallbackActivities loc := by
  obtain ⟨hd, _⟩ := parse_inv h
  subst hd
  constructor
  · rw [padDays_eq, buildDays_length]
  · intro he
    have hlen := congrArg List.length he
    simp [padActivities, fallbackActivities] at hlen

/-- C9: a request without a videoUrl (absent or empty) yields HTTP 500 with an
error message containing the word required; with the service configuration
present, a request with a videoUrl but no Authorization header yields HTTP 500
with an error message mentioning authorization; in both cases the error is the
string in the error field of the JSON body. -/
theorem c9_validation_errors :
    (∀ (env : EnvConfig) (auth : Option String) (rest : HttpResponse),
        handleRequest none env auth rest = ⟨500, some "Video URL is required"⟩ ∧
        handleRequest (some "") env auth rest = ⟨500, some "Video URL is required"⟩) ∧
    (∀ (url : String) (env : EnvConfig) (rest : HttpResponse), url ≠ "" → envOk env = true →
        handleRequest (some url) env none rest = ⟨500, some "Authorization required"⟩) ∧
    (∃ a b : String, "Video URL is required" = a ++ "required" ++ b) ∧
    (∃ a b : String, "Authorization required" = a ++ "Authorization" ++ b) := by
  refine ⟨?_, ?_, ⟨"Video URL is ", "", by decide⟩, ⟨"", " required", by decide⟩⟩
  · intro env auth rest
    exact ⟨rfl, rfl⟩
  · intro url env rest hurl henv
    have hu : url.isEmpty = false := by
      rcases he : url.isEmpty with _ | _
      · rfl
      · exact absurd ((String.isEmpty_iff url).mp he) hurl
    simp only [envOk, Bool.and_eq_true] at henv
    obtain ⟨⟨⟨h1, h2⟩, h3⟩, h4⟩ := henv
    simp only [jsTruthy, Bool.not_eq_true'] at h1 h2 h3 h4
    simp [handleRequest, validateRequest, jsTruthy, hu, h1, h2, h3, h4]
    rfl

/-- C10: the duration string and the day list are computed independently and
never reconciled: the duration of any successful parse is exactly the
duration extracted from the text alone, and on the exhibited input mentioning
10 days but containing only one day section the parse returns the duration 10
Days together with a day list of exactly 3 entries. -/
theorem c10_duration_day_list_independent :
    (∀ (text loc : String) (days : List DayPlan) (dur : String),
        parseItinerary text loc = some (days, dur) → dur = parsedDuration text) ∧
    parseItinerary "Trip for 10 days\nDay 1: Arrival\n- beach" "Bali" =
      some ([⟨1, "Arrival", ["beach"]⟩,
             ⟨2, "Day 2 - Exploring Bali", padActivities "Bali"⟩,
             ⟨3, "Day 3 - Exploring Bali", padActivities "Bali"⟩], "10 Days") := by
  constructor
  · intro text loc days dur h
    exact (parse_inv h).2
  · decide

/-! Witnesses: each claim theorem with hypotheses applied at a concrete
input, every hypothesis discharged there. -/

/-- C2 witness at a markerless input. -/
theorem c2_witness :
    ∃ days dur, parseItinerary "hello" "X" = some (days, dur) ∧
      3 ≤ days.length ∧ days.length ≤ 7 :=
  ⟨[⟨1, "Day 1 - Exploring X", padActivities "X"⟩,
    ⟨2, "Day 2 - Exploring X", padActivities "X"⟩,
    ⟨3, "Day 3 - Exploring X", padActivities "X"⟩], "5 Days", by decide,
   c2_day_list_bounds "hello" "X"
     [⟨1, "Day 1 - Exploring X", padActivities "X"⟩,
      ⟨2, "Day 2 - Exploring X", padActivities "X"⟩,
      ⟨3, "Day 3 - Exploring X", padActivities "X"⟩] "5 Days" (by decide)⟩

/-- C3 witness at an input with one real day holding two activities. -/
theorem c3_witness :
    1 ≤ (DayPlan.mk 1 "Fun" ["swim", "eat"]).activities.length ∧
      (DayPlan.mk 1 "Fun" ["swim", "eat"]).activities.length ≤ 4 :=
  c3_activities_bounds "Day 1: Fun\n- swim\n- eat" "Rio"
    [⟨1, "Fun", ["swim", "eat"]⟩,
     ⟨2, "Day 2 - Exploring Rio", padActivities "Rio"⟩,
     ⟨3, "Day 3 - Exploring Rio", padActivities "Rio"⟩] "5 Days" (by decide)
    (DayPlan.mk 1 "Fun" ["swim", "eat"]) (by decide)

/-- C4 witness at an input whose source text numbers its days 5 and 9: the
output numbering is still 1, 2, 3. -/
theorem c4_witness :
    ([⟨1, "Roam", fallbackActivities "X"⟩,
      ⟨2, "More", fallbackActivities "X"⟩,
      ⟨3, "Day 3 - Exploring X", padActivities "X"⟩] : List DayPlan).map DayPlan.day =
      List.range' 1
        ([⟨1, "Roam", fallbackActivities "X"⟩,
          ⟨2, "More", fallbackActivities "X"⟩,
          ⟨3, "Day 3 - Exploring X", padActivities "X"⟩] : List DayPlan).length :=
  c4_sequential_day_numbers "Day 5: Roam\nDay 9: More" "X"
    [⟨1, "Roam", fallbackActivities "X"⟩,
     ⟨2, "More", fallbackActivities "X"⟩,
     ⟨3, "Day 3 - Exploring X", padActivities "X"⟩] "5 Days" (by decide)

/-- C5 witness: a text with no day count yields 5 Days; a text whose first
match captures 7 yields 7 Days. -/
theorem c5_witness :
    parsedDuration "hello there" = "5 Days" ∧
      parsedDuration "spend 7 DAYS in Rome" = "7 Days" :=
  ⟨(c5_duration_extraction "hello there").1 (not_hasDayCount_of_none (by decide)),
   (c5_duration_extraction "spend 7 DAYS in Rome").2 (by decide)⟩

/-- C6 witness: the title of the first parsed day equals the all-occurrence
strip of its fragment's first line. -/
theorem c6_witness :
    ∃ d, ([⟨1, "Hello  World", ["fun"]⟩,
           ⟨2, "Day 2 - Exploring X", padActivities "X"⟩,
           ⟨3, "Day 3 - Exploring X", padActivities "X"⟩] : List DayPlan).get? 0 = some d ∧
      d.title = dayTitle 1 (": Hello - World\n- fun").toList "X" :=
  c6_amended_title "Day 1: Hello - World\n- fun" "X"
    [⟨1, "Hello  World", ["fun"]⟩,
     ⟨2, "Day 2 - Exploring X", padActivities "X"⟩,
     ⟨3, "Day 3 - Exploring X", padActivities "X"⟩] "5 Days" (by decide) 0
    (": Hello - World\n- fun").toList (by decide)

/-- C7 witness at a text containing no day marker. -/
theorem c7_witness :
    parseItinerary "a lovely trip to the beach" "Goa" =
      some ([⟨1, "Day 1 - Exploring " ++ "Goa", padActivities "Goa"⟩,
             ⟨2, "Day 2 - Exploring " ++ "Goa", padActivities "Goa"⟩,
             ⟨3, "Day 3 - Exploring " ++ "Goa", padActivities "Goa"⟩],
        parsedDuration "a lovely trip to the beach") :=
  c7_no_day_markers "a lovely trip to the beach" "Goa"
    (not_hasDayMarker_of_scan (by decide))

/-- C8 witness at an input with a single real day. -/
theorem c8_witness :
    ([⟨1, "hi", fallbackActivities "X"⟩,
      ⟨2, "Day 2 - Exploring X", padActivities "X"⟩,
      ⟨3, "Day 3 - Exploring X", padActivities "X"⟩] : List DayPlan) =
      buildDays "X" 1 (realFragments "day 1 hi") ++
        (List.range' ((realFragments "day 1 hi").length + 1)
          (3 - (realFragments "day 1 hi").length)).map (padEntry "X") ∧
    padActivities "X" ≠ fallbackActivities "X" :=
  c8_amended_padding "day 1 hi" "X"
    [⟨1, "hi", fallbackActivities "X"⟩,
     ⟨2, "Day 2 - Exploring X", padActivities "X"⟩,
     ⟨3, "Day 3 - Exploring X", padActivities "X"⟩] "5 Days" (by decide) (by decide)

/-- C9 witness at a concrete environment and request. -/
theorem c9_witness :
    handleRequest none ⟨some "u", some "k", some "o", some "g"⟩ none ⟨200, none⟩ =
      ⟨500, some "Video URL is required"⟩ ∧
    handleRequest (some "vid") ⟨some "u", some "k", some "o", some "g"⟩ none ⟨200, none⟩ =
      ⟨500, some "Authorization required"⟩ :=
  ⟨(c9_validation_errors.1 ⟨some "u", some "k", some "o", some "g"⟩ none ⟨200, none⟩).1,
   c9_validation_errors.2.1 "vid" ⟨some "u", some "k", some "o", some "g"⟩ ⟨200, none⟩
     (by decide) (by decide)⟩

/-- C10 witness: the duration of the exhibited parse is exactly the duration
extracted from the text. -/
theorem c10_witness :
    ("10 Days" : String) = parsedDuration "Trip for 10 days\nDay 1: Arrival\n- beach" :=
  c10_duration_day_list_independent.1 "Trip for 10 days\nDay 1: Arrival\n- beach" "Bali"
    [⟨1, "Arrival", ["beach"]⟩,
     ⟨2, "Day 2 - Exploring Bali", padActivities "Bali"⟩,
     ⟨3, "Day 3 - Exploring Bali", padActivities "Bali"⟩] "10 Days" (by decide)

end ClipToTrip
